import Mathlib

/-!
Verification of the `ilog` structured-logging pipeline.

This file shallowly embeds the parts of the repository that the verified
properties are about:

* `src/utils/sensitive-data.ts` — the redaction engine
  (`maskSensitiveData`, `shouldMaskField`, `maskValue`);
* `src/middlewares/rate-limit-middleware.ts` — the sliding-window rate
  limiter (`RateLimitMiddleware.execute`, `cleanOldTimestamps`,
  `isRateLimitExceeded`, `getLogsInWindow`);
* `src/writers/index.ts` — the rotating file writer (`FileWriter.write`,
  `FileWriter.rotateFile`);
* `src/core/logger.ts` — the orchestrator (`Logger.log`,
  `executeMiddlewarePipeline`, the `debug/info/warn/error/fatal` entry
  points, `Logger.child`, `Logger.setContext`, `Logger.clearContext`).

JavaScript strings are embedded as `List Char`, JavaScript objects as an
inductive `SValue` (null / string / number / boolean / array / object with
a list of own enumerable string-keyed fields), and timestamps as integer
milliseconds.  Stateful classes are embedded as explicit state records with
step functions; callback invocations and middleware effects are made
explicit as returned values.
-/

/-- JavaScript string, embedded as its list of characters. -/
abbrev Str := List Char

/-- Lower-case every character (embeds `String.prototype.toLowerCase` for
the ASCII field names the policy deals with). -/
def lowerStr (s : Str) : Str := s.map Char.toLower

/-- `isPrefixList p s` holds when `p` is a leading run of `s`
(character-by-character equality). -/
def isPrefixList : Str → Str → Bool
  | [], _ => true
  | _ :: _, [] => false
  | a :: as, b :: bs => a == b && isPrefixList as bs

/-- `containsSub needle hay` embeds JavaScript
`hay.includes(needle)`: `needle` occurs contiguously in `hay`. -/
def containsSub (needle : Str) : Str → Bool
  | [] => needle.isEmpty
  | hay@(_ :: t) => isPrefixList needle hay || containsSub needle t

/-- One regex atom of the default sensitive patterns: the character `.`
matches any character, every other character matches itself.  The default
patterns (`/password/i`, `/social.security/i`, …) use no other regex
syntax, so this captures their semantics exactly (both sides are
lower-cased by the caller, embedding the `i` flag). -/
def atomMatches (p c : Char) : Bool := p == '.' || p == c

/-- The pattern matches starting exactly at the head of the text. -/
def matchHere : Str → Str → Bool
  | [], _ => true
  | _ :: _, [] => false
  | p :: ps, c :: cs => atomMatches p c && matchHere ps cs

/-- `patTest p s` embeds `RegExp(p, "i").test(s)` for the dot-and-literal
patterns used by the policy: the pattern matches at some position of the
lower-cased text. -/
def patTest (p s : Str) : Bool :=
  match s with
  | [] => matchHere p []
  | _ :: cs => matchHere p s || patTest p cs

/-- `repeatStr m n` embeds JavaScript `m.repeat(n)`: `n` concatenated
copies of the string `m`. -/
def repeatStr (m : Str) : Nat → Str
  | 0 => []
  | n + 1 => m ++ repeatStr m n

/-- A JavaScript structured value as the redaction engine sees it:
`null`/`undefined`, a string, an integer number, a boolean, an array, or a
plain object given by its own enumerable string-keyed fields in insertion
order. -/
inductive SValue where
  | vNull : SValue
  | vStr : Str → SValue
  | vNum : Int → SValue
  | vBool : Bool → SValue
  | vArr : List SValue → SValue
  | vObj : List (Str × SValue) → SValue

/-- `typeof value === 'object' && value !== null` — true exactly for
arrays and plain objects. -/
def isObjectLike : SValue → Bool
  | .vArr _ => true
  | .vObj _ => true
  | _ => false

mutual

/-- Embeds JavaScript `String(value)` on an `SValue` (`null` prints as
`"null"`, arrays join their elements with commas printing `null` holes as
empty, objects print as `"[object Object]"`). -/
def svToString : SValue → Str
  | .vNull => "null".data
  | .vStr s => s
  | .vNum n => (toString n).data
  | .vBool b => if b then "true".data else "false".data
  | .vArr xs => arrToString xs
  | .vObj _ => "[object Object]".data

/-- Array-to-string part of `String(value)`: elements joined by `,`,
with `null`/`undefined` holes printing as the empty string. -/
def arrToString : List SValue → Str
  | [] => []
  | [.vNull] => []
  | [x] => svToString x
  | .vNull :: xs => ',' :: arrToString xs
  | x :: xs => svToString x ++ ',' :: arrToString xs

end

/-- `SensitiveDataMaskingOptions` of `src/utils/sensitive-data.ts`, with
the per-use-site defaults of `maskValue` (`maskCharacter = "*"`,
`preserveLength = true`, `showFirst = showLast = 0`) as field defaults.
`customPatterns` keeps the dot-and-literal pattern embedding of
`patTest`. -/
structure SensitiveDataMaskingOptions where
  sensitiveFields : List Str
  customPatterns : List Str := []
  maskCharacter : Str := ['*']
  preserveLength : Bool := true
  showFirst : Nat := 0
  showLast : Nat := 0

/-- `DEFAULT_SENSITIVE_PATTERNS` of `src/utils/sensitive-data.ts` (all are
case-insensitive dot-and-literal patterns). -/
def DEFAULT_SENSITIVE_PATTERNS : List Str :=
  ["password".data, "token".data, "key".data, "secret".data, "auth".data,
   "credential".data, "ssn".data, "social.security".data,
   "credit.card".data, "card.number".data, "cvv".data, "pin".data,
   "email".data, "phone".data, "mobile".data]

/-- `shouldMaskField` of `src/utils/sensitive-data.ts`: the field name
matches an explicit sensitive-field entry as a case-insensitive substring,
or a default pattern, or a custom pattern. -/
def shouldMaskField (fieldName : Str) (o : SensitiveDataMaskingOptions) : Bool :=
  o.sensitiveFields.any (fun f => containsSub (lowerStr f) (lowerStr fieldName)) ||
  DEFAULT_SENSITIVE_PATTERNS.any (fun p => patTest (lowerStr p) (lowerStr fieldName)) ||
  o.customPatterns.any (fun p => patTest (lowerStr p) (lowerStr fieldName))

/-- The string-level core of `maskValue` (lines 88–105 of
`src/utils/sensitive-data.ts`), applied to the value's string form:
if `length <= showFirst + showLast` emit the all-mask string (length
preserved, or three mask copies when `preserveLength` is off), otherwise
keep the first `showFirst` and last `showLast` characters around a masked
middle. -/
def maskStr (o : SensitiveDataMaskingOptions) (s : Str) : Str :=
  if s.length ≤ o.showFirst + o.showLast then
    if o.preserveLength then repeatStr o.maskCharacter s.length
    else repeatStr o.maskCharacter 3
  else
    s.take o.showFirst ++
    repeatStr o.maskCharacter
      (if o.preserveLength then s.length - o.showFirst - o.showLast else 3) ++
    s.drop (s.length - o.showLast)

/-- `maskValue` of `src/utils/sensitive-data.ts`: `null`/`undefined`
values are returned unchanged; every other value is converted to its
string form and masked by `maskStr`. -/
def maskValue (o : SensitiveDataMaskingOptions) : SValue → SValue
  | .vNull => .vNull
  | v => .vStr (maskStr o (svToString v))

mutual

/-- `maskSensitiveData` of `src/utils/sensitive-data.ts`: non-objects are
returned unchanged, arrays recurse element-wise, and each object field is
masked when its key matches, recursed into when its value is object-like,
and kept otherwise. -/
def maskSensitiveData (o : SensitiveDataMaskingOptions) : SValue → SValue
  | .vArr xs => .vArr (maskArr o xs)
  | .vObj fs => .vObj (maskFields o fs)
  | v => v

/-- Element-wise recursion of `maskSensitiveData` over an array. -/
def maskArr (o : SensitiveDataMaskingOptions) : List SValue → List SValue
  | [] => []
  | x :: xs => maskSensitiveData o x :: maskArr o xs

/-- The `for (const [key, value] of Object.entries(data))` loop of
`maskSensitiveData`. -/
def maskFields (o : SensitiveDataMaskingOptions) :
    List (Str × SValue) → List (Str × SValue)
  | [] => []
  | (k, v) :: fs =>
    (if shouldMaskField k o then (k, maskValue o v)
     else if isObjectLike v then (k, maskSensitiveData o v)
     else (k, v)) :: maskFields o fs

end

/-- The "fully masked" observation used by the security properties: the
output is a string all of whose characters are drawn from the configured
mask string. -/
def isAllMaskChars (mc : Str) : SValue → Prop
  | .vStr s => ∀ c ∈ s, c ∈ mc
  | _ => False

/-! ### Rate-limit middleware (`src/middlewares/rate-limit-middleware.ts`) -/

/-- `LogLevel` of `src/types/index.ts` (numeric enum 0–4). -/
inductive LogLevel where
  | debug | info | warn | error | fatal
deriving DecidableEq

/-- The numeric value of the `LogLevel` enum member. -/
def LogLevel.toNat : LogLevel → Nat
  | .debug => 0
  | .info => 1
  | .warn => 2
  | .error => 3
  | .fatal => 4

/-- `RateLimitOptions` of `src/middlewares/rate-limit-middleware.ts`.
`hasOnRateLimitExceeded` records whether an `onRateLimitExceeded`
callback was supplied; the callback's invocations are made explicit as a
list of arguments returned by the step function. -/
structure RateLimitOptions where
  maxLogsPerSecond : Option Nat := none
  maxLogsPerMinute : Option Nat := none
  maxLogsPerHour : Option Nat := none
  skipLevels : List LogLevel := []
  hasOnRateLimitExceeded : Bool := false

/-- The constructor's `{ maxLogsPerSecond: 100, ...this.options }` merge:
an absent per-second limit defaults to 100, everything else is kept. -/
def mkRateLimitOptions (o : RateLimitOptions) : RateLimitOptions :=
  { o with maxLogsPerSecond := match o.maxLogsPerSecond with
      | none => some 100
      | some m => some m }

/-- The mutable fields of a `RateLimitMiddleware` instance
(`logTimestamps` as integer milliseconds, `droppedLogsCount`). -/
structure RLState where
  logTimestamps : List Int
  droppedLogsCount : Nat
deriving DecidableEq

/-- `cleanOldTimestamps`: keep only timestamps from the last hour
(strictly newer than `now - 3600000`). -/
def cleanOldTimestamps (now : Int) (ts : List Int) : List Int :=
  ts.filter (fun t => now - 3600000 < t)

/-- `getLogsInWindow`: the number of retained timestamps strictly newer
than `now - windowMs`. -/
def getLogsInWindow (now windowMs : Int) (ts : List Int) : Nat :=
  (ts.filter (fun t => now - windowMs < t)).length

/-- `isRateLimitExceeded`: each configured (truthy, hence non-zero) limit
is checked against its window count; the per-second, per-minute and
per-hour checks fire when the count reaches the cap. -/
def isRateLimitExceeded (o : RateLimitOptions) (now : Int) (ts : List Int) : Bool :=
  (match o.maxLogsPerSecond with
    | some m => m != 0 && m ≤ getLogsInWindow now 1000 ts
    | none => false) ||
  (match o.maxLogsPerMinute with
    | some m => m != 0 && m ≤ getLogsInWindow now 60000 ts
    | none => false) ||
  (match o.maxLogsPerHour with
    | some m => m != 0 && m ≤ getLogsInWindow now 3600000 ts
    | none => false)

/-- One `RateLimitMiddleware.execute` call on an entry with level `lvl`
and timestamp `now`.  Returns the new instance state, whether `next` was
called (the entry proceeded), and the list of arguments passed to the
`onRateLimitExceeded` callback during this call.  The per-dispatch
`context.metadata['rateLimitInfo']` enrichment touches no instance state
and is not modelled. -/
def rlExecute (o : RateLimitOptions) (s : RLState) (lvl : LogLevel) (now : Int) :
    RLState × Bool × List Nat :=
  if lvl ∈ o.skipLevels then (s, true, [])
  else
    let ts := cleanOldTimestamps now s.logTimestamps
    if isRateLimitExceeded o now ts then
      let d := s.droppedLogsCount + 1
      (⟨ts, d⟩, false, if o.hasOnRateLimitExceeded then [d] else [])
    else
      (⟨ts ++ [now], s.droppedLogsCount⟩, true, [])

/-- Run a sequence of `execute` calls, accumulating the per-entry
proceed/drop flags and the callback invocation arguments in order. -/
def rlRun (o : RateLimitOptions) (s : RLState) :
    List (LogLevel × Int) → RLState × List Bool × List Nat
  | [] => (s, [], [])
  | (lvl, t) :: rest =>
    let r := rlExecute o s lvl t
    let tail := rlRun o r.1 rest
    (tail.1, r.2.1 :: tail.2.1, r.2.2 ++ tail.2.2)

/-- `getDroppedLogsCount`. -/
def getDroppedLogsCount (s : RLState) : Nat := s.droppedLogsCount

/-- `[s, s+1, …, s+n-1]`: the cumulative dropped counts reported by a run
of consecutive drops. -/
def countUp (s : Nat) : Nat → List Nat
  | 0 => []
  | n + 1 => s :: countUp (s + 1) n

/-- The widest window (in milliseconds) among the limits the middleware
was configured with — this follows the spec's words ("the largest window
the accountant was configured with"), for comparison against what the
code retains. -/
def largestConfiguredWindowMs (o : RateLimitOptions) : Option Int :=
  if o.maxLogsPerHour.isSome then some 3600000
  else if o.maxLogsPerMinute.isSome then some 60000
  else if o.maxLogsPerSecond.isSome then some 1000
  else none

/-- A middleware configured with only a per-second limit of `N` and a
drop callback — the configuration of the rate-limit property. -/
def rlOptsPerSecond (N : Nat) : RateLimitOptions :=
  { maxLogsPerSecond := some N, hasOnRateLimitExceeded := true }

/-! ### Rotating file writer (`src/writers/index.ts`) -/

/-- The rotation-relevant state of a `FileWriter`: the byte counter
`currentFileSize`, the records (by byte size, in order) appended to the
active file since the last rotation or construction, and the number of
rotations performed.  A record's bytes always go to a single file, so the
active file's contents are exactly the concatenation of `activeFile`. -/
structure FWState where
  currentFileSize : Nat
  activeFile : List Nat
  rotations : Nat
deriving DecidableEq

/-- A fresh writer on an empty path: size 0, empty active file. -/
def fwInit : FWState := ⟨0, [], 0⟩

/-- `FileWriter.write` for one record of `n` bytes (the formatted line
plus its newline), with `maxBytes = maxFileSize * 1024 * 1024`: rotate
first when `currentFileSize + n > maxBytes` (rotation renames the active
file away and resets the counter to 0), then append the whole record to
the active file and add its size to the counter. -/
def fwWrite (maxBytes : Nat) (s : FWState) (n : Nat) : FWState :=
  let s' := if maxBytes < s.currentFileSize + n then
      ({ currentFileSize := 0, activeFile := [], rotations := s.rotations + 1 } : FWState)
    else s
  { s' with currentFileSize := s'.currentFileSize + n,
            activeFile := s'.activeFile ++ [n] }

/-- A sequence of `write` calls. -/
def fwRun (maxBytes : Nat) (s : FWState) : List Nat → FWState
  | [] => s
  | n :: rest => fwRun maxBytes (fwWrite maxBytes s n) rest

/-! ### Orchestrator dispatch (`src/core/logger.ts`) -/

/-- The runtime value passed as `message`: the TypeScript signature says
`string`, but a caller can pass any value; `nonString tag` stands for a
concrete non-string runtime value described by `tag`. -/
inductive MsgValue where
  | str : Str → MsgValue
  | nonString : Str → MsgValue
deriving DecidableEq

/-- `typeof message === 'string'`. -/
def msgIsString : MsgValue → Bool
  | .str _ => true
  | .nonString _ => false

/-- The slice of a `LogEntry` the middleware pipeline model needs. -/
structure EntryM where
  level : LogLevel
  message : MsgValue
deriving DecidableEq

/-- What one middleware invocation does with an entry: call `next()`
(continue), return without calling `next()` (drop the entry), or throw. -/
inductive MWAction where
  | proceed : MWAction
  | stop : MWAction
  | throwErr : Str → MWAction
deriving DecidableEq

/-- A middleware, abstracted to its observable per-entry behaviour. -/
abbrev MW := EntryM → MWAction

/-- `executeMiddlewarePipeline` of `src/core/logger.ts`: middlewares run
in order via the `next` chain; a middleware that does not call `next`
ends the run (the final `processLogEntry` step is not reached, result
`.ok false`); if every middleware proceeds, `processLogEntry` runs
(result `.ok true`; writer failures there are swallowed by
`Promise.allSettled`).  There is no `try`/`catch` anywhere in this chain,
so a thrown error propagates out as the async function's rejection
(`.error msg`). -/
def executeMiddlewarePipeline : List MW → EntryM → Except Str Bool
  | [], _ => .ok true
  | m :: rest, e =>
    match m e with
    | .proceed => executeMiddlewarePipeline rest e
    | .stop => .ok false
    | .throwErr msg => .error msg

/-- The orchestrator configuration slice used by dispatch: the minimum
severity. -/
structure LoggerCfg where
  level : LogLevel
deriving DecidableEq

/-- `shouldLog`: `level >= this.config.level` on the numeric enum. -/
def shouldLog (cfg : LoggerCfg) (lvl : LogLevel) : Bool :=
  cfg.level.toNat ≤ lvl.toNat

/-- `writeLog`: below-threshold entries return at once without running
the pipeline; otherwise the middleware pipeline runs.  The value is what
the `writeLog(entry)` promise settles to. -/
def writeLog (cfg : LoggerCfg) (mws : List MW) (e : EntryM) : Except Str Bool :=
  if shouldLog cfg e.level then executeMiddlewarePipeline mws e else .ok false

/-- Everything observable about one `Logger.log` dispatch:
`raisedToCaller` — an exception escaping the synchronous `log` call to
the producer (`Logger.log` builds the entry and invokes the async
`writeLog` without `await` and without `.catch`, so nothing can escape:
always `none`);
`pipelinePromise` — what the discarded `writeLog` promise settles to (a
middleware throw leaves it rejected and unhandled);
`fallbackNotices` — messages emitted on a fallback channel for pipeline
failures (`logger.ts` contains no catch-and-report path for middleware
exceptions, so none are ever emitted). -/
structure DispatchResult where
  raisedToCaller : Option Str
  pipelinePromise : Except Str Bool
  fallbackNotices : List Str

/-- `Logger.log`: fire-and-forget dispatch of one entry. -/
def logDispatch (cfg : LoggerCfg) (mws : List MW) (lvl : LogLevel) (m : MsgValue) :
    DispatchResult :=
  { raisedToCaller := none
    pipelinePromise := writeLog cfg mws ⟨lvl, m⟩
    fallbackNotices := [] }

/-- A middleware that always throws with message `msg`. -/
def throwingMW (msg : Str) : MW := fun _ => .throwErr msg

/-- `Logger.debug`: no message validation, delegates to `log`. -/
def debugCall (cfg : LoggerCfg) (mws : List MW) (m : MsgValue) :
    Except Str DispatchResult :=
  .ok (logDispatch cfg mws .debug m)

/-- `Logger.info`: no message validation, delegates to `log`. -/
def infoCall (cfg : LoggerCfg) (mws : List MW) (m : MsgValue) :
    Except Str DispatchResult :=
  .ok (logDispatch cfg mws .info m)

/-- `Logger.warn`: no message validation, delegates to `log`. -/
def warnCall (cfg : LoggerCfg) (mws : List MW) (m : MsgValue) :
    Except Str DispatchResult :=
  .ok (logDispatch cfg mws .warn m)

/-- `Logger.error`: `if (typeof message !== 'string') throw new
Error('Message must be a string')`, then delegates to `log`. -/
def errorCall (cfg : LoggerCfg) (mws : List MW) (m : MsgValue) :
    Except Str DispatchResult :=
  if msgIsString m then .ok (logDispatch cfg mws .error m)
  else .error "Message must be a string".data

/-- `Logger.fatal`: same validation as `Logger.error`. -/
def fatalCall (cfg : LoggerCfg) (mws : List MW) (m : MsgValue) :
    Except Str DispatchResult :=
  if msgIsString m then .ok (logDispatch cfg mws .fatal m)
  else .error "Message must be a string".data

/-- `true` when the call returned normally to the producer. -/
def callOk {ε α : Type} : Except ε α → Bool
  | .ok _ => true
  | .error _ => false

/-! ### Logger context and `child` (`src/core/logger.ts`)

Context isolation is an aliasing question, so the embedding makes the
JavaScript heap explicit: each `Logger` instance's `this.context` object
is a cell in a heap of context objects, addressed by the cell's index.
`Logger.child` builds the child's context with a spread
(`{ ...this.context, ...context }`), i.e. it allocates a fresh cell
holding a by-value copy; `setContext` and `clearContext` mutate only the
instance's own cell. -/

/-- A context object: own enumerable string-keyed fields in insertion
order. -/
abbrev Ctx := List (Str × SValue)

/-- `this.context[key] = value`: overwrite an existing key in place, or
append a new one. -/
def ctxSet (c : Ctx) (k : Str) (v : SValue) : Ctx :=
  if c.any (fun kv => kv.1 == k) then
    c.map (fun kv => if kv.1 == k then (k, v) else kv)
  else c ++ [(k, v)]

/-- Object spread `{ ...p, ...e }`: fields of `e` overwrite fields of
`p`, new keys are appended in order. -/
def ctxMerge (p e : Ctx) : Ctx :=
  e.foldl (fun acc kv => ctxSet acc kv.1 kv.2) p

/-- The heap of context objects; a logger holds the index of its cell. -/
abbrev CtxHeap := List Ctx

/-- Read a logger's context object from the heap. -/
def heapGet (h : CtxHeap) (r : Nat) : Ctx := h.getD r []

/-- Overwrite a logger's context object in the heap. -/
def heapSet (h : CtxHeap) (r : Nat) (c : Ctx) : CtxHeap := h.set r c

/-- `Logger.child(context)`: allocate a fresh context cell holding
`{ ...this.context, ...context }` and return the heap together with the
child's cell index (`h.length`, a cell distinct from every existing
one). -/
def childCreate (h : CtxHeap) (parent : Nat) (extra : Ctx) : CtxHeap × Nat :=
  (h ++ [ctxMerge (heapGet h parent) extra], h.length)

/-- A context-mutating operation of the logger interface. -/
inductive CtxOp where
  | setCtx : Str → SValue → CtxOp
  | clearCtx : CtxOp

/-- Apply `setContext`/`clearContext` to the logger owning cell `r`. -/
def applyCtxOp (h : CtxHeap) (r : Nat) : CtxOp → CtxHeap
  | .setCtx k v => heapSet h r (ctxSet (heapGet h r) k v)
  | .clearCtx => heapSet h r []

/-- Apply a sequence of context operations, all addressed to the logger
owning cell `r`. -/
def applyCtxOps (h : CtxHeap) (r : Nat) : List CtxOp → CtxHeap
  | [] => h
  | op :: rest => applyCtxOps (applyCtxOp h r op) r rest

/-- Observation helper: the string stored in the first field of an
object value (used to tell concrete redaction outputs apart). -/
def objFirstStr : SValue → Str
  | .vObj ((_, .vStr s) :: _) => s
  | _ => []

/-! ## Theorems -/

/-- Structural induction for `SValue` that hands the inductive hypothesis
to every array element and every object field value. -/
theorem SValue.inductionOn {P : SValue → Prop}
    (hnull : P .vNull) (hstr : ∀ s, P (.vStr s)) (hnum : ∀ n, P (.vNum n))
    (hbool : ∀ b, P (.vBool b))
    (harr : ∀ xs, (∀ x ∈ xs, P x) → P (.vArr xs))
    (hobj : ∀ fs, (∀ kv ∈ fs, P kv.2) → P (.vObj fs)) :
    ∀ v, P v
  | .vNull => hnull
  | .vStr s => hstr s
  | .vNum n => hnum n
  | .vBool b => hbool b
  | .vArr xs => harr xs (fun x hx =>
      SValue.inductionOn hnull hstr hnum hbool harr hobj x)
  | .vObj fs => hobj fs (fun kv hkv =>
      SValue.inductionOn hnull hstr hnum hbool harr hobj kv.2)
termination_by v => sizeOf v
decreasing_by
  · have := List.sizeOf_lt_of_mem hx
    simp only [SValue.vArr.sizeOf_spec]
    omega
  · have h1 := List.sizeOf_lt_of_mem hkv
    have h2 : sizeOf kv.2 < sizeOf kv := by
      obtain ⟨a, b⟩ := kv
      simp only [Prod.mk.sizeOf_spec]
      omega
    simp only [SValue.vObj.sizeOf_spec]
    omega

/-- C10: an entry whose level is in `skipLevels` proceeds (`next` is
called), is never dropped, and leaves the middleware instance's state —
both the timestamp window and the dropped-logs counter — exactly as it
was; the callback is not invoked.  Exempt entries therefore never consume
any rate budget. -/
theorem C10_skip_levels_bypass (o : RateLimitOptions) (s : RLState)
    (lvl : LogLevel) (now : Int) (h : lvl ∈ o.skipLevels) :
    rlExecute o s lvl now = (s, true, []) ∧
    getDroppedLogsCount (rlExecute o s lvl now).1 = getDroppedLogsCount s := by
  have he : rlExecute o s lvl now = (s, true, []) := by
    unfold rlExecute
    rw [if_pos h]
  exact ⟨he, by rw [he]⟩

/-- Witness for C10: a `debug`-level entry on a middleware with
`skipLevels = [debug]` passes through a non-empty state unchanged. -/
theorem C10_skip_levels_bypass_witness :
    rlExecute ⟨some 5, none, none, [LogLevel.debug], true⟩ ⟨[3, 4], 7⟩
      LogLevel.debug 10 = (⟨[3, 4], 7⟩, true, []) :=
  (C10_skip_levels_bypass ⟨some 5, none, none, [LogLevel.debug], true⟩
    ⟨[3, 4], 7⟩ LogLevel.debug 10 (by decide)).1

/-- C5, counterexample: with only a per-second limit configured
(`maxLogsPerSecond = 1`, so the largest configured window is 1000 ms),
recording timestamps 0 and 5000 retains timestamp 0 — which is older
than the largest configured window relative to the last operation at
5000 — because `cleanOldTimestamps` always keeps a full hour. -/
theorem C5_stale_timestamp_retained_cex :
    largestConfiguredWindowMs ⟨some 1, none, none, [], false⟩ = some 1000 ∧
    (rlRun ⟨some 1, none, none, [], false⟩ ⟨[], 0⟩
      [(LogLevel.info, 0), (LogLevel.info, 5000)]).1.logTimestamps = [0, 5000] ∧
    ¬ (5000 - 1000 < (0 : Int)) := by
  refine ⟨by decide, by decide, by decide⟩

/-- C5, amended: after every accounting operation (every `execute` call
on a non-exempt entry), no retained timestamp is older than **one hour**
— the largest window the middleware supports, which is what
`cleanOldTimestamps` always evicts to, independently of which limits were
configured. -/
theorem C5_hour_window_invariant (o : RateLimitOptions) (s : RLState)
    (lvl : LogLevel) (now : Int) (hskip : lvl ∉ o.skipLevels) :
    ∀ x ∈ (rlExecute o s lvl now).1.logTimestamps, now - 3600000 < x := by
  intro x hx
  unfold rlExecute at hx
  rw [if_neg hskip] at hx
  by_cases hex : isRateLimitExceeded o now (cleanOldTimestamps now s.logTimestamps)
  · simp only [hex, if_true] at hx
    exact (List.mem_filter.mp hx).2 |> of_decide_eq_true
  · simp only [hex, if_false] at hx
    rcases List.mem_append.mp hx with hmem | hmem
    · exact (List.mem_filter.mp hmem).2 |> of_decide_eq_true
    · have : x = now := List.mem_singleton.mp hmem
      omega

/-- Witness for C5: a concrete accounting operation retains exactly the
fresh timestamp, which is within the hour window. -/
theorem C5_hour_window_invariant_witness :
    (rlExecute ⟨some 1, none, none, [], false⟩ ⟨[], 0⟩ LogLevel.info 0).1.logTimestamps
      = [(0 : Int)] ∧ (0 : Int) - 3600000 < 0 :=
  ⟨by decide,
   C5_hour_window_invariant ⟨some 1, none, none, [], false⟩ ⟨[], 0⟩
     LogLevel.info 0 (by decide) 0 (by decide)⟩

/-- C8, counterexample: `Logger.debug` (and likewise `info`/`warn`)
performs no message validation — calling it with a non-string message
returns normally to the caller instead of reporting an immediate
synchronous error, so the "every dispatch entry point" part of the claim
fails on the code. -/
theorem C8_debug_accepts_non_string_cex :
    callOk (debugCall ⟨LogLevel.debug⟩ [] (.nonString "the number 42".data)) = true ∧
    callOk (infoCall ⟨LogLevel.debug⟩ [] (.nonString "the number 42".data)) = true ∧
    callOk (warnCall ⟨LogLevel.debug⟩ [] (.nonString "the number 42".data)) = true := by
  exact ⟨rfl, rfl, rfl⟩

/-- C8, amended: only `Logger.error` and `Logger.fatal` validate the
message: they report a non-string message as an immediate synchronous
error to the caller, while `debug`, `info` and `warn` accept any message
value and always return normally. -/
theorem C8_only_error_fatal_validate (cfg : LoggerCfg) (mws : List MW)
    (tag : Str) (m : MsgValue) :
    errorCall cfg mws (.nonString tag) = .error "Message must be a string".data ∧
    fatalCall cfg mws (.nonString tag) = .error "Message must be a string".data ∧
    callOk (debugCall cfg mws m) = true ∧
    callOk (infoCall cfg mws m) = true ∧
    callOk (warnCall cfg mws m) = true :=
  ⟨rfl, rfl, rfl, rfl, rfl⟩

/-- Once every middleware before a throwing one has called `next`, the
pipeline run rejects with that middleware's exception: nothing in the
`next` chain catches it. -/
theorem executeMiddlewarePipeline_throw (msg : Str) (e : EntryM) :
    ∀ (pre post : List MW), (∀ mw ∈ pre, mw e = .proceed) →
      executeMiddlewarePipeline (pre ++ throwingMW msg :: post) e = .error msg := by
  intro pre
  induction pre with
  | nil =>
    intro post _
    simp only [List.nil_append]
    rfl
  | cons mw rest ih =>
    intro post hpre
    have hmw : mw e = .proceed := hpre mw (List.mem_cons_self mw rest)
    show executeMiddlewarePipeline (mw :: (rest ++ throwingMW msg :: post)) e = .error msg
    unfold executeMiddlewarePipeline
    rw [hmw]
    exact ih post (fun m hm => hpre m (List.mem_cons_of_mem mw hm))

/-- C7, counterexample: with a single middleware that throws, the
dispatch leaves the pipeline promise rejected (`.error`) — the exception
is never caught at the orchestrator boundary (`Logger.log` neither awaits
nor attaches a handler to the `writeLog` promise) — and no fallback
notice is emitted anywhere, refuting the "caught … and surfaced as a
dispatch-level failure on a fallback channel" part of the claim. -/
theorem C7_no_fallback_channel_cex :
    (logDispatch ⟨LogLevel.debug⟩ [throwingMW "boom".data] LogLevel.info
      (.str "hi".data)).fallbackNotices = [] ∧
    (logDispatch ⟨LogLevel.debug⟩ [throwingMW "boom".data] LogLevel.info
      (.str "hi".data)).pipelinePromise = .error "boom".data ∧
    (logDispatch ⟨LogLevel.debug⟩ [throwingMW "boom".data] LogLevel.info
      (.str "hi".data)).raisedToCaller = none :=
  ⟨rfl, rfl, rfl⟩

/-- C7, amended: a middleware that throws instead of calling `next`
terminates that entry's pipeline run, and the exception is never
re-thrown to the producer — the dispatch call returns normally, because
`Logger.log` fires the async `writeLog` without awaiting it.  However the
exception is **not** caught at the orchestrator boundary and no
fallback-channel notice is emitted: the `writeLog` promise is simply left
rejected and unhandled. -/
theorem C7_throwing_middleware_contained (cfg : LoggerCfg) (pre post : List MW)
    (msg : Str) (lvl : LogLevel) (m : MsgValue)
    (hpre : ∀ mw ∈ pre, mw ⟨lvl, m⟩ = .proceed)
    (hlog : shouldLog cfg lvl = true) :
    logDispatch cfg (pre ++ throwingMW msg :: post) lvl m =
      ⟨none, .error msg, []⟩ := by
  unfold logDispatch writeLog
  rw [hlog, if_pos rfl, executeMiddlewarePipeline_throw msg ⟨lvl, m⟩ pre post hpre]

/-- Witness for C7: a throwing middleware behind one pass-through
middleware yields a discarded rejection and no producer-visible error. -/
theorem C7_throwing_middleware_contained_witness :
    logDispatch ⟨LogLevel.debug⟩
      ((fun _ => MWAction.proceed) :: throwingMW "boom".data :: []) LogLevel.info
      (.str "hi".data) = ⟨none, .error "boom".data, []⟩ :=
  C7_throwing_middleware_contained ⟨LogLevel.debug⟩ [fun _ => MWAction.proceed] []
    "boom".data LogLevel.info (.str "hi".data)
    (fun mw hmw => by
      rcases List.mem_singleton.mp hmw with h
      rw [h])
    rfl

/-- Writing one logger's context cell never changes a different cell. -/
theorem heapGet_applyCtxOp_ne (h : CtxHeap) (r r' : Nat) (op : CtxOp)
    (hne : r ≠ r') : heapGet (applyCtxOp h r op) r' = heapGet h r' := by
  cases op with
  | setCtx k v =>
    simp only [applyCtxOp, heapSet, heapGet, List.getD_eq_getElem?_getD]
    rw [List.getElem?_set_ne hne]
  | clearCtx =>
    simp only [applyCtxOp, heapSet, heapGet, List.getD_eq_getElem?_getD]
    rw [List.getElem?_set_ne hne]

/-- A whole sequence of `setContext`/`clearContext` calls on one logger
never changes a different logger's context cell. -/
theorem heapGet_applyCtxOps_ne (r r' : Nat) (hne : r ≠ r') :
    ∀ (ops : List CtxOp) (h : CtxHeap),
      heapGet (applyCtxOps h r ops) r' = heapGet h r' := by
  intro ops
  induction ops with
  | nil => intro h; rfl
  | cons op rest ih =>
    intro h
    show heapGet (applyCtxOps (applyCtxOp h r op) r rest) r' = heapGet h r'
    rw [ih (applyCtxOp h r op), heapGet_applyCtxOp_ne h r r' op hne]

/-- C9: parent and child logger contexts are isolated after child
creation.  `Logger.child` allocates a fresh context cell (index
`h.length`) holding a by-value spread copy, so for every parent cell,
every child created from it, and every subsequent sequence of
`setContext`/`clearContext` calls, mutating the parent's context leaves
the child's context untouched, and mutating the child's leaves the
parent's untouched. -/
theorem C9_parent_child_context_isolated (h : CtxHeap) (parent : Nat)
    (extra : Ctx) (ops1 ops2 : List CtxOp) (hp : parent < h.length) :
    heapGet (applyCtxOps (childCreate h parent extra).1 parent ops1)
        (childCreate h parent extra).2 =
      heapGet (childCreate h parent extra).1 (childCreate h parent extra).2 ∧
    heapGet (applyCtxOps (childCreate h parent extra).1
        (childCreate h parent extra).2 ops2) parent =
      heapGet (childCreate h parent extra).1 parent := by
  have hne : parent ≠ h.length := Nat.ne_of_lt hp
  exact ⟨heapGet_applyCtxOps_ne parent h.length hne ops1 _,
         heapGet_applyCtxOps_ne h.length parent (Ne.symm hne) ops2 _⟩

/-- Witness for C9: a concrete parent with one field, a child adding a
field, a parent-side `setContext` and a child-side `clearContext`. -/
theorem C9_parent_child_context_isolated_witness :
    heapGet (applyCtxOps (childCreate [[("a".data, SValue.vNum 1)]] 0
        [("b".data, SValue.vNum 2)]).1 0
        [CtxOp.setCtx "a".data (SValue.vNum 9)])
      (childCreate [[("a".data, SValue.vNum 1)]] 0 [("b".data, SValue.vNum 2)]).2 =
      heapGet (childCreate [[("a".data, SValue.vNum 1)]] 0
        [("b".data, SValue.vNum 2)]).1
        (childCreate [[("a".data, SValue.vNum 1)]] 0 [("b".data, SValue.vNum 2)]).2 ∧
    heapGet (applyCtxOps (childCreate [[("a".data, SValue.vNum 1)]] 0
        [("b".data, SValue.vNum 2)]).1
        (childCreate [[("a".data, SValue.vNum 1)]] 0 [("b".data, SValue.vNum 2)]).2
        [CtxOp.clearCtx]) 0 =
      heapGet (childCreate [[("a".data, SValue.vNum 1)]] 0
        [("b".data, SValue.vNum 2)]).1 0 :=
  C9_parent_child_context_isolated [[("a".data, SValue.vNum 1)]] 0
    [("b".data, SValue.vNum 2)] [CtxOp.setCtx "a".data (SValue.vNum 9)]
    [CtxOp.clearCtx] (by decide)

/-- Every character of `m.repeat(n)` is a character of `m`. -/
theorem mem_repeatStr (m : Str) : ∀ (n : Nat) (c : Char), c ∈ repeatStr m n → c ∈ m := by
  intro n
  induction n with
  | zero => intro c hc; cases hc
  | succ k ih =>
    intro c hc
    rcases List.mem_append.mp hc with h | h
    · exact h
    · exact ih c h

/-- For every non-null value, `maskValue` converts to the string form and
masks it. -/
theorem maskValue_ne_null (o : SensitiveDataMaskingOptions) (v : SValue)
    (hv : v ≠ .vNull) : maskValue o v = .vStr (maskStr o (svToString v)) := by
  cases v with
  | vNull => exact absurd rfl hv
  | vStr s => rfl
  | vNum n => rfl
  | vBool b => rfl
  | vArr xs => rfl
  | vObj fs => rfl

/-- C1, counterexample: a `null` value under a matching sensitive key is
returned unchanged by `maskValue`, so although its string form `"null"`
has length `4 ≤ showFirst + showLast`, the output is not a string of mask
characters at all — it is the original value. -/
theorem C1_null_value_not_masked_cex :
    shouldMaskField "password".data
      ⟨["password".data], [], ['*'], true, 2, 2⟩ = true ∧
    (svToString SValue.vNull).length ≤ 2 + 2 ∧
    maskValue ⟨["password".data], [], ['*'], true, 2, 2⟩ SValue.vNull =
      SValue.vNull ∧
    ¬ isAllMaskChars ['*']
      (maskValue ⟨["password".data], [], ['*'], true, 2, 2⟩ SValue.vNull) :=
  ⟨by decide, by decide, rfl, fun hcontra => hcontra⟩

/-- C1, amended: for every **non-null** value under a key matching the
sensitive policy, if `showFirst + showLast` is at least the length of the
value's string form, the masked output consists only of mask characters —
in both `preserveLength` modes — so nothing of the original value is
revealed.  (`null`/`undefined` values are passed through unchanged by
`maskValue` and are therefore excluded.) -/
theorem C1_short_values_fully_masked (o : SensitiveDataMaskingOptions)
    (k : Str) (v : SValue) (hk : shouldMaskField k o = true)
    (hv : v ≠ .vNull)
    (hlen : (svToString v).length ≤ o.showFirst + o.showLast) :
    maskFields o [(k, v)] = [(k, maskValue o v)] ∧
    isAllMaskChars o.maskCharacter (maskValue o v) := by
  constructor
  · simp only [maskFields, hk, if_true]
  · rw [maskValue_ne_null o v hv]
    show ∀ c ∈ maskStr o (svToString v), c ∈ o.maskCharacter
    intro c hc
    unfold maskStr at hc
    rw [if_pos hlen] at hc
    by_cases hp : o.preserveLength
    · rw [if_pos hp] at hc
      exact mem_repeatStr o.maskCharacter _ c hc
    · rw [if_neg hp] at hc
      exact mem_repeatStr o.maskCharacter 3 c hc

/-- Witness for C1: the 3-character password `"abc"` with
`showFirst = showLast = 2` is masked to a string of `*` only. -/
theorem C1_short_values_fully_masked_witness :
    maskFields ⟨["password".data], [], ['*'], true, 2, 2⟩
        [("password".data, SValue.vStr "abc".data)] =
      [("password".data,
        maskValue ⟨["password".data], [], ['*'], true, 2, 2⟩
          (SValue.vStr "abc".data))] ∧
    isAllMaskChars ['*']
      (maskValue ⟨["password".data], [], ['*'], true, 2, 2⟩
        (SValue.vStr "abc".data)) :=
  C1_short_values_fully_masked ⟨["password".data], [], ['*'], true, 2, 2⟩
    "password".data (SValue.vStr "abc".data) (by decide)
    (fun h => SValue.noConfusion h) (by decide)

/-- C2, counterexample: the example output in the claim carries **11**
mask characters (`"su***********23"`, 15 characters for a 14-character
input), but the code preserves length: it emits `2 + 10 + 2 = 14`
characters.  The redaction result therefore differs from the claimed
map. -/
theorem C2_example_output_cex :
    maskSensitiveData ⟨["password".data], [], ['*'], true, 2, 2⟩
        (.vObj [("password".data, .vStr "supersecret123".data)]) ≠
      .vObj [("password".data, .vStr "su***********23".data)] :=
  fun h => absurd (congrArg objFirstStr h) (by decide)

/-- C2, amended: redacting `{password: "supersecret123"}` with
`sensitiveFields = ["password"]`, `showFirst = 2`, `showLast = 2` and the
remaining options at their defaults yields
`{password: "su**********23"}` — first two and last two characters kept,
the **10** middle characters of the 14-character value masked. -/
theorem C2_example_output :
    maskSensitiveData ⟨["password".data], [], ['*'], true, 2, 2⟩
        (.vObj [("password".data, .vStr "supersecret123".data)]) =
      .vObj [("password".data, .vStr "su**********23".data)] := by
  rfl

/-- If the whole batch still fits, no write rotates: sizes accumulate
and records append to the active file. -/
theorem fwRun_no_rotation (B : Nat) :
    ∀ (l : List Nat) (s : FWState), s.currentFileSize + l.sum ≤ B →
      fwRun B s l = ⟨s.currentFileSize + l.sum, s.activeFile ++ l, s.rotations⟩ := by
  intro l
  induction l with
  | nil =>
    intro s _
    simp [fwRun]
  | cons n rest ih =>
    intro s hle
    have hn : ¬ B < s.currentFileSize + n := by
      simp only [List.sum_cons] at hle
      omega
    show fwRun B (fwWrite B s n) rest = _
    have hw : fwWrite B s n =
        ⟨s.currentFileSize + n, s.activeFile ++ [n], s.rotations⟩ := by
      unfold fwWrite
      rw [if_neg hn]
    have hfit : (⟨s.currentFileSize + n, s.activeFile ++ [n],
        s.rotations⟩ : FWState).currentFileSize + rest.sum ≤ B := by
      show s.currentFileSize + n + rest.sum ≤ B
      simp only [List.sum_cons] at hle
      omega
    rw [hw, ih ⟨s.currentFileSize + n, s.activeFile ++ [n], s.rotations⟩ hfit]
    have hadd : s.currentFileSize + n + rest.sum =
        s.currentFileSize + (n :: rest).sum := by
      simp only [List.sum_cons]
      omega
    simp only [List.append_assoc, List.singleton_append]
    rw [hadd]

/-- A list of positive numbers with sum zero is empty. -/
theorem pos_sum_zero_nil : ∀ (l : List Nat), (∀ n ∈ l, 0 < n) → l.sum = 0 → l = [] := by
  intro l hpos hsum
  cases l with
  | nil => rfl
  | cons m rest =>
    have hm : 0 < m := hpos m (List.mem_cons_self m rest)
    simp only [List.sum_cons] at hsum
    omega

/-- Starting from size `c ≤ B` with one byte more than `B` still to
write, exactly one rotation happens, and afterwards the active file holds
exactly the records from the rotation point on. -/
theorem fwRun_single_rotation (B : Nat) :
    ∀ (l : List Nat) (c : Nat) (a : List Nat) (r : Nat),
      (∀ n ∈ l, 0 < n) → c + l.sum = B + 1 → c ≤ B →
      ∃ i, i < l.length ∧
        fwRun B ⟨c, a, r⟩ l = ⟨(l.drop i).sum, l.drop i, r + 1⟩ ∧
        c + (l.take i).sum ≤ B := by
  intro l
  induction l with
  | nil =>
    intro c a r _ hsum hc
    simp only [List.sum_nil] at hsum
    omega
  | cons n rest ih =>
    intro c a r hpos hsum hc
    simp only [List.sum_cons] at hsum
    by_cases hrot : B < c + n
    · have hw : fwWrite B ⟨c, a, r⟩ n = ⟨n, [n], r + 1⟩ := by
        unfold fwWrite
        rw [if_pos hrot]
        simp
      by_cases hc0 : c = 0
      · have hrest : rest = [] := by
          apply pos_sum_zero_nil rest
            (fun m hm => hpos m (List.mem_cons_of_mem n hm))
          omega
        subst hrest
        refine ⟨0, by simp, ?_, by simpa using hc⟩
        show fwRun B (fwWrite B ⟨c, a, r⟩ n) [] = _
        rw [hw]
        simp [fwRun]
      · have hfit : n + rest.sum ≤ B := by omega
        refine ⟨0, by simp, ?_, by simpa using hc⟩
        show fwRun B (fwWrite B ⟨c, a, r⟩ n) rest = _
        rw [hw, fwRun_no_rotation B rest ⟨n, [n], r + 1⟩ (by simpa using hfit)]
        simp only [List.drop_zero, List.sum_cons, List.singleton_append]
    · have hw : fwWrite B ⟨c, a, r⟩ n =
          ⟨c + n, a ++ [n], r⟩ := by
        unfold fwWrite
        rw [if_neg hrot]
      obtain ⟨i, hi, heq, hle⟩ := ih (c + n) (a ++ [n]) r
        (fun m hm => hpos m (List.mem_cons_of_mem n hm)) (by omega) (by omega)
      refine ⟨i + 1, by simpa using Nat.succ_lt_succ hi, ?_, ?_⟩
      · show fwRun B (fwWrite B ⟨c, a, r⟩ n) rest = _
        rw [hw, heq]
        simp only [List.drop_succ_cons]
      · simp only [List.take_succ_cons, List.sum_cons]
        omega

/-- C6: rotation bookkeeping of the rotating file writer.
(1) A write of `n` bytes rotates before the append **iff**
`currentFileSize + n > maxFileSizeBytes`.
(2) When it rotates, the counter is reset and the whole record lands in
the fresh active file (`activeFile = [n]`, size `n`) — never split.
(3) When it does not rotate, the record appends to the current active
file.
(4) From a fresh writer, writing `maxFileSizeBytes + 1` bytes in total
across multiple (non-empty) writes triggers exactly one rotation, and the
active file afterwards holds exactly the records from the rotation point
on, the bytes before that point staying within the limit. -/
theorem C6_rotation_bookkeeping :
    (∀ (B : Nat) (s : FWState) (n : Nat),
      (fwWrite B s n).rotations =
        s.rotations + (if B < s.currentFileSize + n then 1 else 0)) ∧
    (∀ (B : Nat) (s : FWState) (n : Nat), B < s.currentFileSize + n →
      fwWrite B s n = ⟨n, [n], s.rotations + 1⟩) ∧
    (∀ (B : Nat) (s : FWState) (n : Nat), s.currentFileSize + n ≤ B →
      fwWrite B s n =
        ⟨s.currentFileSize + n, s.activeFile ++ [n], s.rotations⟩) ∧
    (∀ (B : Nat) (l : List Nat), (∀ n ∈ l, 0 < n) → l.sum = B + 1 →
      ∃ i, i < l.length ∧
        fwRun B fwInit l = ⟨(l.drop i).sum, l.drop i, 1⟩ ∧
        (l.take i).sum ≤ B) := by
  refine ⟨?_, ?_, ?_, ?_⟩
  · intro B s n
    unfold fwWrite
    by_cases hrot : B < s.currentFileSize + n
    · rw [if_pos hrot, if_pos hrot]
    · rw [if_neg hrot, if_neg hrot]
      simp
  · intro B s n hrot
    unfold fwWrite
    rw [if_pos hrot]
    simp
  · intro B s n hfit
    unfold fwWrite
    rw [if_neg (by omega)]
  · intro B l hpos hsum
    obtain ⟨i, hi, heq, hle⟩ :=
      fwRun_single_rotation B l 0 [] 0 hpos (by omega) (by omega)
    exact ⟨i, hi, by simpa using heq, by simpa using hle⟩

/-- Witness for C6: a write of 5 bytes onto a file of size 8 with an
11-byte limit does not rotate; a write of 5 bytes onto a file of size 8
with a 10-byte limit rotates, resets, and lands whole in the fresh
file. -/
theorem C6_rotation_bookkeeping_witness :
    fwWrite 10 ⟨8, [8], 0⟩ 5 = ⟨5, [5], 1⟩ ∧
    fwWrite 13 ⟨8, [8], 0⟩ 5 = ⟨13, [8, 5], 0⟩ :=
  ⟨C6_rotation_bookkeeping.2.1 10 ⟨8, [8], 0⟩ 5 (by decide),
   C6_rotation_bookkeeping.2.2.1 13 ⟨8, [8], 0⟩ 5 (by decide)⟩


/-- One `execute` call on a fresh-window state whose retained timestamps
are all within one second of the entry: nothing is evicted, the window
count equals the retained count, and the entry is dropped exactly when
the per-second cap is already reached. -/
theorem rlExecute_close (N : Nat) (hN : 0 < N) (done : List Int) (d : Nat)
    (t : Int) (hclose : ∀ x ∈ done, t - x < 1000) :
    rlExecute (rlOptsPerSecond N) ⟨done, d⟩ LogLevel.info t =
      if N ≤ done.length then (⟨done, d + 1⟩, false, [d + 1])
      else (⟨done ++ [t], d⟩, true, []) := by
  have hclean : cleanOldTimestamps t done = done := by
    unfold cleanOldTimestamps
    rw [List.filter_eq_self.mpr]
    intro x hx
    have := hclose x hx
    simp only [decide_eq_true_eq]
    omega
  have hwin : getLogsInWindow t 1000 done = done.length := by
    unfold getLogsInWindow
    congr 1
    rw [List.filter_eq_self.mpr]
    intro x hx
    have := hclose x hx
    simp only [decide_eq_true_eq]
    omega
  have hex : isRateLimitExceeded (rlOptsPerSecond N) t done =
      decide (N ≤ done.length) := by
    show ((N != 0 && decide (N ≤ getLogsInWindow t 1000 done)) || false || false) = _
    rw [hwin]
    have hN0 : (N != 0) = true := by
      simp only [bne_iff_ne, ne_eq]
      omega
    rw [hN0, Bool.true_and, Bool.or_false, Bool.or_false]
  unfold rlExecute
  have hmem : LogLevel.info ∉ (rlOptsPerSecond N).skipLevels :=
    List.not_mem_nil LogLevel.info
  rw [if_neg hmem]
  show (if isRateLimitExceeded (rlOptsPerSecond N) t (cleanOldTimestamps t done)
      then (RLState.mk (cleanOldTimestamps t done) (d + 1), false,
        if (rlOptsPerSecond N).hasOnRateLimitExceeded then [d + 1] else [])
      else (RLState.mk (cleanOldTimestamps t done ++ [t]) d, true, [])) = _
  rw [hclean, hex]
  by_cases hle : N ≤ done.length
  · rw [decide_eq_true hle, if_pos rfl, if_pos hle]
    rfl
  · rw [decide_eq_false hle, if_neg hle]
    rfl

/-- `rlRun` distributes over list append: states thread through, flags
and callback calls concatenate. -/
theorem rlRun_append (o : RateLimitOptions) :
    ∀ (l1 l2 : List (LogLevel × Int)) (s : RLState),
      rlRun o s (l1 ++ l2) =
        ((rlRun o (rlRun o s l1).1 l2).1,
         (rlRun o s l1).2.1 ++ (rlRun o (rlRun o s l1).1 l2).2.1,
         (rlRun o s l1).2.2 ++ (rlRun o (rlRun o s l1).1 l2).2.2) := by
  intro l1
  induction l1 with
  | nil => intro l2 s; simp [rlRun]
  | cons p rest ih =>
    intro l2 s
    obtain ⟨lvl, t⟩ := p
    show rlRun o s ((lvl, t) :: (rest ++ l2)) = _
    simp only [rlRun]
    rw [ih l2 (rlExecute o s lvl t).1]
    simp [List.append_assoc]

/-- While the window still has room for all of the batch, every entry of
a within-one-second burst proceeds and is recorded. -/
theorem rlRun_pass (N : Nat) (hN : 0 < N) :
    ∀ (l done : List Int) (d : Nat),
      (∀ a ∈ done ++ l, ∀ b ∈ done ++ l, a - b < 1000) →
      done.length + l.length ≤ N →
      rlRun (rlOptsPerSecond N) ⟨done, d⟩
          (l.map (fun t => (LogLevel.info, t))) =
        (⟨done ++ l, d⟩, List.replicate l.length true, []) := by
  intro l
  induction l with
  | nil => intro done d _ _; simp [rlRun]
  | cons t rest ih =>
    intro done d hclose hlen
    have hct : ∀ x ∈ done, t - x < 1000 := fun x hx =>
      hclose t (List.mem_append_right done (List.mem_cons_self t rest)) x
        (List.mem_append_left _ hx)
    have hstep := rlExecute_close N hN done d t hct
    have hlt : ¬ (N ≤ done.length) := by
      simp only [List.length_cons] at hlen
      omega
    rw [if_neg hlt] at hstep
    have hassoc : (done ++ [t]) ++ rest = done ++ t :: rest := by simp
    have hclose' : ∀ a ∈ (done ++ [t]) ++ rest, ∀ b ∈ (done ++ [t]) ++ rest,
        a - b < 1000 := by
      rw [hassoc]
      exact hclose
    have hlen' : (done ++ [t]).length + rest.length ≤ N := by
      simp only [List.length_append, List.length_cons, List.length_nil] at hlen ⊢
      omega
    simp only [List.map_cons, rlRun, hstep]
    rw [ih (done ++ [t]) d hclose' hlen']
    simp [hassoc, List.replicate_succ]

/-- Once the window is at (or beyond) the cap, every entry of a
within-one-second burst is dropped, the dropped counter increments, and
each drop invokes the callback with the running cumulative count. -/
theorem rlRun_drop (N : Nat) (hN : 0 < N) :
    ∀ (l done : List Int) (d : Nat),
      (∀ a ∈ done ++ l, ∀ b ∈ done ++ l, a - b < 1000) →
      N ≤ done.length →
      rlRun (rlOptsPerSecond N) ⟨done, d⟩
          (l.map (fun t => (LogLevel.info, t))) =
        (⟨done, d + l.length⟩, List.replicate l.length false,
         countUp (d + 1) l.length) := by
  intro l
  induction l with
  | nil => intro done d _ _; simp [rlRun, countUp]
  | cons t rest ih =>
    intro done d hclose hsat
    have hct : ∀ x ∈ done, t - x < 1000 := fun x hx =>
      hclose t (List.mem_append_right done (List.mem_cons_self t rest)) x
        (List.mem_append_left _ hx)
    have hstep := rlExecute_close N hN done d t hct
    rw [if_pos hsat] at hstep
    have hclose' : ∀ a ∈ done ++ rest, ∀ b ∈ done ++ rest, a - b < 1000 := by
      intro a ha b hb
      have hsub : done ++ rest ⊆ done ++ t :: rest := by
        intro x hx
        rcases List.mem_append.mp hx with h | h
        · exact List.mem_append_left _ h
        · exact List.mem_append_right _ (List.mem_cons_of_mem t h)
      exact hclose a (hsub ha) b (hsub hb)
    simp only [List.map_cons, rlRun, hstep]
    rw [ih done (d + 1) hclose' hsat]
    have hd : d + (rest.length + 1) = d + 1 + rest.length := by omega
    simp only [List.length_cons, List.replicate_succ, countUp, hd,
      List.singleton_append]

/-- C3: with `maxLogsPerSecond = N` (and a drop callback configured),
dispatching `N + 1` entries that all lie within one second of each other
through a fresh rate-limit stage lets exactly the first `N` proceed and
drops exactly the one excess entry, invoking the drop callback with the
cumulative dropped count (here `[1]`), leaving the dropped-logs counter
at 1.  In particular, with `maxLogsPerSecond = 2` and 5 same-timestamp
dispatches, 2 pass, 3 are dropped, and the callback is called with the
cumulative counts 1, 2, 3 — reaching 3. -/
theorem C3_rate_limit_drops_excess :
    (∀ (N : Nat) (ts : List Int), 0 < N → ts.length = N + 1 →
      (∀ a ∈ ts, ∀ b ∈ ts, a - b < 1000) →
      (rlRun (rlOptsPerSecond N) ⟨[], 0⟩
          (ts.map (fun t => (LogLevel.info, t)))).2.1 =
        List.replicate N true ++ [false] ∧
      (rlRun (rlOptsPerSecond N) ⟨[], 0⟩
          (ts.map (fun t => (LogLevel.info, t)))).2.2 = [1] ∧
      getDroppedLogsCount (rlRun (rlOptsPerSecond N) ⟨[], 0⟩
          (ts.map (fun t => (LogLevel.info, t)))).1 = 1) ∧
    ((rlRun (rlOptsPerSecond 2) ⟨[], 0⟩
        (List.replicate 5 (LogLevel.info, (0 : Int)))).2.1 =
        [true, true, false, false, false] ∧
      (rlRun (rlOptsPerSecond 2) ⟨[], 0⟩
        (List.replicate 5 (LogLevel.info, (0 : Int)))).2.2 = [1, 2, 3] ∧
      getDroppedLogsCount (rlRun (rlOptsPerSecond 2) ⟨[], 0⟩
        (List.replicate 5 (LogLevel.info, (0 : Int)))).1 = 3) := by
  constructor
  · intro N ts hN hlen hclose
    have htakelen : (ts.take N).length = N := by
      rw [List.length_take]
      omega
    have hdroplen : (ts.drop N).length = 1 := by
      rw [List.length_drop]
      omega
    have hmap : ts.map (fun t => (LogLevel.info, t)) =
        (ts.take N).map (fun t => (LogLevel.info, t)) ++
          (ts.drop N).map (fun t => (LogLevel.info, t)) := by
      rw [← List.map_append, List.take_append_drop]
    have hclose1 : ∀ a ∈ ([] : List Int) ++ ts.take N,
        ∀ b ∈ ([] : List Int) ++ ts.take N, a - b < 1000 := by
      intro a ha b hb
      simp only [List.nil_append] at ha hb
      exact hclose a (List.take_subset N ts ha) b (List.take_subset N ts hb)
    have hpass := rlRun_pass N hN (ts.take N) [] 0 hclose1
      (by simp [htakelen])
    have hclose2 : ∀ a ∈ ts.take N ++ ts.drop N,
        ∀ b ∈ ts.take N ++ ts.drop N, a - b < 1000 := by
      rw [List.take_append_drop]
      exact hclose
    have hdropped := rlRun_drop N hN (ts.drop N) (ts.take N) 0 hclose2
      (le_of_eq htakelen.symm)
    rw [hmap, rlRun_append, hpass]
    simp only [List.nil_append] at hdropped ⊢
    rw [hdropped]
    refine ⟨?_, ?_, ?_⟩
    · rw [htakelen, hdroplen]
      rfl
    · rw [hdroplen]
      rfl
    · rw [hdroplen]
      rfl
  · refine ⟨by decide, by decide, by decide⟩

/-- Witness for C3: `maxLogsPerSecond = 1` and two same-timestamp
dispatches — one passes, the second is dropped with callback count 1. -/
theorem C3_rate_limit_drops_excess_witness :
    (rlRun (rlOptsPerSecond 1) ⟨[], 0⟩
        (([0, 0] : List Int).map (fun t => (LogLevel.info, t)))).2.1 =
      List.replicate 1 true ++ [false] ∧
    (rlRun (rlOptsPerSecond 1) ⟨[], 0⟩
        (([0, 0] : List Int).map (fun t => (LogLevel.info, t)))).2.2 = [1] ∧
    getDroppedLogsCount (rlRun (rlOptsPerSecond 1) ⟨[], 0⟩
        (([0, 0] : List Int).map (fun t => (LogLevel.info, t)))).1 = 1 :=
  C3_rate_limit_drops_excess.1 1 [0, 0] (by decide) (by decide) (by decide)

/-- A single-character mask string repeats to `List.replicate`. -/
theorem repeatStr_single (c : Char) : ∀ n, repeatStr [c] n = List.replicate n c := by
  intro n
  induction n with
  | zero => rfl
  | succ k ih =>
    show [c] ++ repeatStr [c] k = _
    rw [ih]
    rfl

/-- With `preserveLength` on and a single-character mask, `maskStr` is
idempotent: the masked string has the same length, the same first
`showFirst` and last `showLast` characters, and an already-masked
middle. -/
theorem maskStr_idem (o : SensitiveDataMaskingOptions)
    (h1 : o.preserveLength = true) (c : Char) (hc : o.maskCharacter = [c])
    (s : Str) : maskStr o (maskStr o s) = maskStr o s := by
  by_cases hle : s.length ≤ o.showFirst + o.showLast
  · have hfirst : maskStr o s = List.replicate s.length c := by
      unfold maskStr
      rw [if_pos hle, h1, if_pos rfl, hc, repeatStr_single]
    rw [hfirst]
    unfold maskStr
    rw [if_pos (by rw [List.length_replicate]; exact hle), h1, if_pos rfl, hc,
      repeatStr_single, List.length_replicate]
  · have hlt : o.showFirst + o.showLast < s.length := by omega
    have hfirst : maskStr o s =
        s.take o.showFirst ++
          List.replicate (s.length - o.showFirst - o.showLast) c ++
          s.drop (s.length - o.showLast) := by
      unfold maskStr
      rw [if_neg hle, h1, if_pos rfl, hc, repeatStr_single]
    have htakelen : (s.take o.showFirst).length = o.showFirst := by
      rw [List.length_take]
      omega
    have hdroplen : (s.drop (s.length - o.showLast)).length = o.showLast := by
      rw [List.length_drop]
      omega
    have houtlen : (s.take o.showFirst ++
        List.replicate (s.length - o.showFirst - o.showLast) c ++
        s.drop (s.length - o.showLast)).length = s.length := by
      rw [List.length_append, List.length_append, htakelen, hdroplen,
        List.length_replicate]
      omega
    rw [hfirst]
    unfold maskStr
    rw [houtlen, if_neg hle, h1, if_pos rfl, hc, repeatStr_single]
    have htake2 : (s.take o.showFirst ++
        List.replicate (s.length - o.showFirst - o.showLast) c ++
        s.drop (s.length - o.showLast)).take o.showFirst = s.take o.showFirst := by
      rw [List.append_assoc, List.take_left' htakelen]
    have hdrop2 : (s.take o.showFirst ++
        List.replicate (s.length - o.showFirst - o.showLast) c ++
        s.drop (s.length - o.showLast)).drop (s.length - o.showLast) =
        s.drop (s.length - o.showLast) := by
      rw [List.drop_left']
      rw [List.length_append, htakelen, List.length_replicate]
      omega
    rw [htake2, hdrop2]

/-- With `preserveLength` on and a single-character mask, `maskValue` is
idempotent: a masked value is a string whose re-masking reproduces it. -/
theorem maskValue_idem (o : SensitiveDataMaskingOptions)
    (h1 : o.preserveLength = true) (c : Char) (hc : o.maskCharacter = [c])
    (v : SValue) : maskValue o (maskValue o v) = maskValue o v := by
  cases v with
  | vNull => rfl
  | vStr s => exact congrArg SValue.vStr (maskStr_idem o h1 c hc s)
  | vNum n => exact congrArg SValue.vStr (maskStr_idem o h1 c hc _)
  | vBool b => exact congrArg SValue.vStr (maskStr_idem o h1 c hc _)
  | vArr xs => exact congrArg SValue.vStr (maskStr_idem o h1 c hc _)
  | vObj fs => exact congrArg SValue.vStr (maskStr_idem o h1 c hc _)

/-- Redaction preserves the object-likeness of a value (arrays stay
arrays, objects stay objects, scalars stay scalars). -/
theorem isObjectLike_maskSensitiveData (o : SensitiveDataMaskingOptions)
    (v : SValue) : isObjectLike (maskSensitiveData o v) = isObjectLike v := by
  cases v <;> rfl

/-- Array part of redaction idempotence. -/
theorem maskArr_idem (o : SensitiveDataMaskingOptions) :
    ∀ (ys : List SValue),
      (∀ x ∈ ys, maskSensitiveData o (maskSensitiveData o x) =
        maskSensitiveData o x) →
      maskArr o (maskArr o ys) = maskArr o ys := by
  intro ys
  induction ys with
  | nil => intro _; rfl
  | cons y ys ih =>
    intro hall
    show maskSensitiveData o (maskSensitiveData o y) ::
        maskArr o (maskArr o ys) = _
    rw [hall y (List.mem_cons_self y ys),
      ih (fun x hx => hall x (List.mem_cons_of_mem y hx))]
    rfl

/-- Object-fields part of redaction idempotence. -/
theorem maskFields_idem (o : SensitiveDataMaskingOptions)
    (h1 : o.preserveLength = true) (c : Char) (hc : o.maskCharacter = [c]) :
    ∀ (fs : List (Str × SValue)),
      (∀ kv ∈ fs, maskSensitiveData o (maskSensitiveData o kv.2) =
        maskSensitiveData o kv.2) →
      maskFields o (maskFields o fs) = maskFields o fs := by
  intro fs
  induction fs with
  | nil => intro _; rfl
  | cons kv fs ih =>
    intro hall
    obtain ⟨k, v⟩ := kv
    have htail := ih (fun kv hkv => hall kv (List.mem_cons_of_mem (k, v) hkv))
    have hv := hall (k, v) (List.mem_cons_self (k, v) fs)
    by_cases hm : shouldMaskField k o
    · show maskFields o ((if shouldMaskField k o then (k, maskValue o v)
          else if isObjectLike v then (k, maskSensitiveData o v) else (k, v)) ::
          maskFields o fs) = _
      rw [if_pos hm]
      show (if shouldMaskField k o then (k, maskValue o (maskValue o v))
          else _) :: maskFields o (maskFields o fs) = _
      rw [if_pos hm, maskValue_idem o h1 c hc v, htail]
      show _ = (if shouldMaskField k o then (k, maskValue o v) else _) ::
          maskFields o fs
      rw [if_pos hm]
    · by_cases hob : isObjectLike v
      · show maskFields o ((if shouldMaskField k o then (k, maskValue o v)
            else if isObjectLike v then (k, maskSensitiveData o v)
            else (k, v)) :: maskFields o fs) = _
        rw [if_neg hm, if_pos hob]
        show (if shouldMaskField k o then _
            else if isObjectLike (maskSensitiveData o v) then
              (k, maskSensitiveData o (maskSensitiveData o v))
            else (k, maskSensitiveData o v)) ::
            maskFields o (maskFields o fs) = _
        rw [if_neg hm, htail,
          if_pos (by rw [isObjectLike_maskSensitiveData]; exact hob), hv]
        show _ = (if shouldMaskField k o then _
            else if isObjectLike v then (k, maskSensitiveData o v)
            else (k, v)) :: maskFields o fs
        rw [if_neg hm, if_pos hob]
      · show maskFields o ((if shouldMaskField k o then (k, maskValue o v)
            else if isObjectLike v then (k, maskSensitiveData o v)
            else (k, v)) :: maskFields o fs) = _
        rw [if_neg hm, if_neg hob]
        show (if shouldMaskField k o then (k, maskValue o v)
            else if isObjectLike v then (k, maskSensitiveData o v)
            else (k, v)) :: maskFields o (maskFields o fs) = _
        rw [if_neg hm, if_neg hob, htail]
        show _ = (if shouldMaskField k o then (k, maskValue o v)
            else if isObjectLike v then (k, maskSensitiveData o v)
            else (k, v)) :: maskFields o fs
        rw [if_neg hm, if_neg hob]

/-- C4, counterexample: with `preserveLength = false` and
`showFirst = showLast = 1`, redacting `{password: "ab"}` once gives
`{password: "***"}` (3 characters), but redacting the result again gives
`{password: "*****"}` — the masked string is long enough on the second
pass to keep one character on each side of a fresh 3-character mask — so
`redact(redact(x, p), p) ≠ redact(x, p)` for this policy. -/
theorem C4_not_idempotent_cex :
    maskSensitiveData ⟨["password".data], [], ['*'], false, 1, 1⟩
        (maskSensitiveData ⟨["password".data], [], ['*'], false, 1, 1⟩
          (.vObj [("password".data, .vStr "ab".data)])) ≠
      maskSensitiveData ⟨["password".data], [], ['*'], false, 1, 1⟩
        (.vObj [("password".data, .vStr "ab".data)]) :=
  fun h => absurd (congrArg objFirstStr h) (by decide)

/-- C4, amended: redaction **is** idempotent for every structured value
under every policy with `preserveLength = true` and a single-character
`maskCharacter` (both are the defaults): masked fields re-mask to
themselves, and unmasked structure is traversed identically.  With
`preserveLength = false`, or a mask string that is not exactly one
character, idempotence can fail. -/
theorem C4_redact_idempotent (o : SensitiveDataMaskingOptions) (v : SValue)
    (h1 : o.preserveLength = true) (h2 : o.maskCharacter.length = 1) :
    maskSensitiveData o (maskSensitiveData o v) = maskSensitiveData o v := by
  obtain ⟨c, hc⟩ := List.length_eq_one.mp h2
  induction v using SValue.inductionOn with
  | hnull => rfl
  | hstr s => rfl
  | hnum n => rfl
  | hbool b => rfl
  | harr xs ih =>
    show SValue.vArr (maskArr o (maskArr o xs)) = SValue.vArr (maskArr o xs)
    rw [maskArr_idem o xs ih]
  | hobj fs ih =>
    show SValue.vObj (maskFields o (maskFields o fs)) =
      SValue.vObj (maskFields o fs)
    rw [maskFields_idem o h1 c hc fs ih]

/-- Witness for C4: the default-options policy of the logger
(`preserveLength = true`, mask `*`) is idempotent on the example map. -/
theorem C4_redact_idempotent_witness :
    maskSensitiveData ⟨["password".data], [], ['*'], true, 2, 2⟩
        (maskSensitiveData ⟨["password".data], [], ['*'], true, 2, 2⟩
          (.vObj [("password".data, .vStr "supersecret123".data)])) =
      maskSensitiveData ⟨["password".data], [], ['*'], true, 2, 2⟩
        (.vObj [("password".data, .vStr "supersecret123".data)]) :=
  C4_redact_idempotent ⟨["password".data], [], ['*'], true, 2, 2⟩
    (.vObj [("password".data, .vStr "supersecret123".data)]) rfl rfl
